import Mathlib

/-!
Shallow embedding of `cerca.py` (LPPython): a Barcelona event finder that
filters a feed of events by search terms and ranks nearby Bicing stations.

Python floats are modelled as follows: stored coordinates (which are just
data) become rationals, while float arithmetic (the haversine computation)
is idealized over the reals. Python ints become `Int`, strings become
`String`, `None`-able fields become `Option`.
-/

/-- Embedding of the namedtuple LatLong (cerca.py line 29). Coordinates are
stored WGS84 decimal degrees; floats-as-data are modelled as rationals. -/
structure LatLong where
  latitude : ℚ
  longitude : ℚ
deriving DecidableEq, Repr

/-- Embedding of class Station (cerca.py lines 262-281): a Bicing station
with coordinates, free slots, available bikes and a street address.
The street number can be absent in the feed. -/
structure Station where
  coords : LatLong
  slots : Int
  bikes : Int
  street : String
  number : Option String
deriving DecidableEq, Repr

/-- Embedding of class Event (cerca.py lines 216-260): a city event with a
name, a place name, an address, a date, an optional hour, optional
coordinates, and the two result lists of (station, distance) pairs that the
ranker fills in. `Event.__init__` initializes both result lists to empty.
Dates and hours are only ever compared for equality, so they are modelled
as `Nat` and `Option Nat`. Distances are real numbers. -/
structure Event where
  name : String
  place : String
  address : String
  date : Nat
  hour : Option Nat
  coords : Option LatLong
  stations_with_slots : List (Station × ℝ) := []
  stations_with_bikes : List (Station × ℝ) := []

/-- Embedding of the dynamically typed `search_terms` argument of
`check_event` (cerca.py lines 87-105): a Python str is a search term, a
Python list is a conjunction of sub-expressions, a Python tuple is a
disjunction of sub-expressions, and `other` stands for any Python value
that is none of those three (e.g. an int, a dict or None). -/
inductive SearchExpr where
  | term (s : String)
  | conj (l : List SearchExpr)
  | disj (l : List SearchExpr)
  | other
deriving Repr

/-- Embedding of the Python expression needle in hay (contiguous substring
test on characters), needle-first prefix step: true iff `needle` is a
leading block of `hay`. -/
def startsWith : List Char → List Char → Bool
  | [], _ => true
  | _ :: _, [] => false
  | a :: as, b :: bs => a == b && startsWith as bs

/-- Embedding of the Python expression needle in hay on character lists:
true iff `needle` occurs contiguously inside `hay`. -/
def strIn (needle : List Char) : List Char → Bool
  | [] => needle.isEmpty
  | b :: bs => startsWith needle (b :: bs) || strIn needle bs

/-- Embedding of the Python expression needle in hay on strings:
case-sensitive contiguous substring test, no normalization or trimming. -/
def substr (needle hay : String) : Bool :=
  strIn needle.toList hay.toList

mutual

/-- Embedding of check_event (cerca.py lines 87-105). A string is tested as
a substring of the event name, place or address; a list is a conjunction
checked with a short-circuit loop; a tuple is a disjunction checked with a
short-circuit loop; any other value falls through to the final
return False. -/
def check_event (event : Event) : SearchExpr → Bool
  | SearchExpr.term s =>
      substr s event.name || substr s event.place || substr s event.address
  | SearchExpr.conj l => checkConj event l
  | SearchExpr.disj l => checkDisj event l
  | SearchExpr.other => false

/-- The conjunction loop of check_event (cerca.py lines 95-98): return
False as soon as one element fails, True when the loop ends. -/
def checkConj (event : Event) : List SearchExpr → Bool
  | [] => true
  | e :: rest => if check_event event e then checkConj event rest else false

/-- The disjunction loop of check_event (cerca.py lines 101-104): return
True as soon as one element succeeds, False when the loop ends. -/
def checkDisj (event : Event) : List SearchExpr → Bool
  | [] => false
  | e :: rest => if check_event event e then true else checkDisj event rest

end

/-- Embedding of math.radians: degrees to radians. -/
noncomputable def radians (x : ℚ) : ℝ :=
  (x : ℝ) * (Real.pi / 180)

/-- Embedding of math.atan2 over the idealized reals, following the usual
quadrant-correct definition used by the C library. -/
noncomputable def atan2 (y x : ℝ) : ℝ :=
  if 0 < x then Real.arctan (y / x)
  else if x < 0 ∧ 0 ≤ y then Real.arctan (y / x) + Real.pi
  else if x < 0 ∧ y < 0 then Real.arctan (y / x) - Real.pi
  else if x = 0 ∧ 0 < y then Real.pi / 2
  else if x = 0 ∧ y < 0 then -(Real.pi / 2)
  else 0

/-- Embedding of haversine_distance (cerca.py lines 31-48): approximate
great-circle distance in meters between two LatLong points, with the float
arithmetic idealized over the reals. The source also computes o_lon and
d_lon but never uses them, so they are omitted here. -/
noncomputable def haversine_distance (origin destination : LatLong) : ℝ :=
  let earth_radius : ℝ := 6371e3
  let o_lat := radians origin.latitude
  let d_lat := radians destination.latitude
  let delta_lat := radians (destination.latitude - origin.latitude)
  let delta_long := radians (destination.longitude - origin.longitude)
  let a := Real.sin (delta_lat / 2) ^ 2 +
    Real.cos o_lat * Real.cos d_lat * Real.sin (delta_long / 2) ^ 2
  let c := 2 * atan2 (Real.sqrt a) (Real.sqrt (1 - a))
  earth_radius * c

/-- The inner station loop of set_nearest_stations (cerca.py lines 77-83),
with the two result lists of the current event as accumulators: a station
within max_distance is appended to the slots accumulator when it has free
slots, otherwise to the bikes accumulator when it has available bikes, and
otherwise to neither. -/
noncomputable def collect_stations (coords : LatLong) (max_distance : ℝ) :
    List Station → List (Station × ℝ) → List (Station × ℝ) →
      List (Station × ℝ) × List (Station × ℝ)
  | [], acc_slots, acc_bikes => (acc_slots, acc_bikes)
  | station :: rest, acc_slots, acc_bikes =>
    let distance := haversine_distance coords station.coords
    if distance ≤ max_distance then
      if station.slots > 0 then
        collect_stations coords max_distance rest
          (acc_slots ++ [(station, distance)]) acc_bikes
      else if station.bikes > 0 then
        collect_stations coords max_distance rest
          acc_slots (acc_bikes ++ [(station, distance)])
      else collect_stations coords max_distance rest acc_slots acc_bikes
    else collect_stations coords max_distance rest acc_slots acc_bikes

/-- The body of the outer event loop of set_nearest_stations (cerca.py
lines 74-85): an event without coordinates is skipped unchanged; otherwise
the qualifying stations are appended to the event's two result lists and
both lists are sorted ascending by distance with a stable sort, matching
the Python list.sort(key=lambda e: e[1]). -/
noncomputable def rank_event (stations : List Station) (max_distance : ℝ)
    (event : Event) : Event :=
  match event.coords with
  | none => event
  | some coords =>
    let res := collect_stations coords max_distance stations
      event.stations_with_slots event.stations_with_bikes
    { event with
      stations_with_slots := res.1.mergeSort (fun p q => decide (p.2 ≤ q.2))
      stations_with_bikes := res.2.mergeSort (fun p q => decide (p.2 ≤ q.2)) }

/-- Embedding of set_nearest_stations (cerca.py lines 69-85): for every
event, set the stations with available bikes and slots that are at distance
at most max_distance. The Python function mutates each event in place;
here the updated event list is returned. -/
noncomputable def set_nearest_stations (events : List Event)
    (stations : List Station) (max_distance : ℝ) : List Event :=
  events.map (rank_event stations max_distance)

/-- The list of (station, distance) entries that the station loop appends
to stations_with_slots for an event at `coords`, in the original station
iteration order: stations within max_distance that have free slots. -/
noncomputable def slots_entries (coords : LatLong) (max_distance : ℝ)
    (stations : List Station) : List (Station × ℝ) :=
  stations.filterMap fun s =>
    if haversine_distance coords s.coords ≤ max_distance ∧ s.slots > 0 then
      some (s, haversine_distance coords s.coords)
    else none

/-- The list of (station, distance) entries that the station loop appends
to stations_with_bikes for an event at `coords`, in the original station
iteration order: stations within max_distance that have no free slots but
do have available bikes. -/
noncomputable def bikes_entries (coords : LatLong) (max_distance : ℝ)
    (stations : List Station) : List (Station × ℝ) :=
  stations.filterMap fun s =>
    if haversine_distance coords s.coords ≤ max_distance ∧
        ¬ s.slots > 0 ∧ s.bikes > 0 then
      some (s, haversine_distance coords s.coords)
    else none

/-- Embedding of find_monthly_events (cerca.py lines 107-118). The Python
function downloads and parses the monthly feed; that network boundary is
modelled by passing the parsed feed as the `feed` argument. The loop keeps,
in order, the events whose date equals the target date and which match the
search terms. -/
def find_monthly_events (search_terms : SearchExpr) (date : Nat) :
    List Event → List Event
  | [] => []
  | event :: rest =>
    if event.date = date ∧ check_event event search_terms = true then
      event :: find_monthly_events search_terms date rest
    else find_monthly_events search_terms date rest

/-- Specification-side substring relation, from the spec words: `needle`
occurs as a contiguous case-sensitive block inside `hay`. -/
def IsSubstringOf (needle hay : String) : Prop :=
  ∃ p t, hay.toList = p ++ needle.toList ++ t

/-- Specification-side reference semantics of matching, from the spec
words: a term matches iff it is a substring of the event name, place or
address; a conjunction matches iff all children match (so an empty
conjunction always matches); a disjunction matches iff some child matches
(so an empty disjunction never matches). -/
inductive Matches (e : Event) : SearchExpr → Prop where
  | term {t : String} :
      IsSubstringOf t e.name ∨ IsSubstringOf t e.place ∨
        IsSubstringOf t e.address → Matches e (SearchExpr.term t)
  | conj {l : List SearchExpr} :
      (∀ x ∈ l, Matches e x) → Matches e (SearchExpr.conj l)
  | disj {l : List SearchExpr} {x : SearchExpr} :
      x ∈ l → Matches e x → Matches e (SearchExpr.disj l)

/-- Well-formed search expressions: built from terms, conjunctions and
disjunctions only, with no `other` node anywhere. -/
inductive WF : SearchExpr → Prop where
  | term (s : String) : WF (SearchExpr.term s)
  | conj {l : List SearchExpr} : (∀ x ∈ l, WF x) → WF (SearchExpr.conj l)
  | disj {l : List SearchExpr} : (∀ x ∈ l, WF x) → WF (SearchExpr.disj l)

/-- A sample event used to evaluate the matcher on concrete inputs. -/
def sampleEvent : Event :=
  { name := "Concert de Jazz", place := "Parc de la Ciutadella",
    address := "Passeig de Picasso 21", date := 5, hour := none,
    coords := none }

/-- A sample event with the same three text fields as `sampleEvent` but a
different date, hour and coordinates. -/
def sampleEventAlt : Event :=
  { name := "Concert de Jazz", place := "Parc de la Ciutadella",
    address := "Passeig de Picasso 21", date := 9, hour := some 4,
    coords := some ⟨41, 2⟩ }

/-- A sample station with free slots, located at latitude 41, longitude 2. -/
def sampleStation : Station :=
  { coords := ⟨41, 2⟩, slots := 5, bikes := 0, street := "Passeig", number := none }

/-- A sample event located exactly at `sampleStation`. -/
def sampleRankEvent : Event :=
  { name := "Fira", place := "Moll", address := "Port Vell", date := 3,
    hour := none, coords := some ⟨41, 2⟩ }

theorem checkConj_eq_all (e : Event) (l : List SearchExpr) :
    checkConj e l = l.all (check_event e) := by
  induction l with
  | nil => rfl
  | cons a t ih =>
    simp only [checkConj, List.all_cons, ih]
    cases check_event e a <;> simp

theorem checkDisj_eq_any (e : Event) (l : List SearchExpr) :
    checkDisj e l = l.any (check_event e) := by
  induction l with
  | nil => rfl
  | cons a t ih =>
    simp only [checkDisj, List.any_cons, ih]
    cases check_event e a <;> simp

theorem list_all_congr {α : Type} {f g : α → Bool} :
    ∀ {l : List α}, (∀ x ∈ l, f x = g x) → l.all f = l.all g
  | [], _ => rfl
  | a :: t, h => by
    rw [List.all_cons, List.all_cons, h a (List.mem_cons_self a t),
      list_all_congr (fun x hx => h x (List.mem_cons_of_mem a hx))]

theorem list_any_congr {α : Type} {f g : α → Bool} :
    ∀ {l : List α}, (∀ x ∈ l, f x = g x) → l.any f = l.any g
  | [], _ => rfl
  | a :: t, h => by
    rw [List.any_cons, List.any_cons, h a (List.mem_cons_self a t),
      list_any_congr (fun x hx => h x (List.mem_cons_of_mem a hx))]

theorem startsWith_iff (n : List Char) :
    ∀ h : List Char, startsWith n h = true ↔ ∃ t, h = n ++ t := by
  induction n with
  | nil =>
    intro h
    simp only [startsWith, List.nil_append]
    exact ⟨fun _ => ⟨h, rfl⟩, fun _ => trivial⟩
  | cons a as ih =>
    intro h
    cases h with
    | nil =>
      simp [startsWith]
    | cons b bs =>
      rw [show startsWith (a :: as) (b :: bs) = (a == b && startsWith as bs)
          from rfl, Bool.and_eq_true, beq_iff_eq, ih bs]
      constructor
      · rintro ⟨hab, t, ht⟩
        exact ⟨t, by rw [List.cons_append, hab, ht]⟩
      · rintro ⟨t, ht⟩
        rw [List.cons_append] at ht
        injection ht with h1 h2
        exact ⟨h1.symm, t, h2⟩

theorem strIn_iff (n : List Char) (h : List Char) :
    strIn n h = true ↔ ∃ p t, h = p ++ n ++ t := by
  induction h with
  | nil =>
    rw [show strIn n [] = n.isEmpty from rfl]
    constructor
    · intro he
      exact ⟨[], [], by simp [List.isEmpty_iff.mp he]⟩
    · rintro ⟨p, t, ht⟩
      have := ht.symm
      simp only [List.append_eq_nil] at this
      simp [List.isEmpty_iff, this.1.2]
  | cons b bs ih =>
    rw [show strIn n (b :: bs) = (startsWith n (b :: bs) || strIn n bs)
        from rfl, Bool.or_eq_true, startsWith_iff, ih]
    constructor
    · rintro (⟨t, ht⟩ | ⟨p, t, ht⟩)
      · exact ⟨[], t, by simp [ht]⟩
      · exact ⟨b :: p, t, by simp [ht]⟩
    · rintro ⟨p, t, ht⟩
      cases p with
      | nil => exact Or.inl ⟨t, by simpa using ht⟩
      | cons c cs =>
        rw [List.cons_append, List.cons_append] at ht
        injection ht with h1 h2
        exact Or.inr ⟨cs, t, by simp [h2]⟩

theorem substr_iff (needle hay : String) :
    substr needle hay = true ↔ IsSubstringOf needle hay :=
  strIn_iff needle.toList hay.toList

theorem check_event_iff_matches_aux (e : Event) :
    ∀ (n : Nat) (s : SearchExpr), sizeOf s ≤ n → WF s →
      (check_event e s = true ↔ Matches e s) := by
  intro n
  induction n with
  | zero =>
    intro s hs _
    exfalso
    cases s <;> simp at hs
  | succ n ih =>
    intro s hs hwf
    cases s with
    | term t =>
      rw [show check_event e (SearchExpr.term t) =
          (substr t e.name || substr t e.place || substr t e.address)
          from rfl, Bool.or_eq_true, Bool.or_eq_true,
        substr_iff, substr_iff, substr_iff]
      constructor
      · intro h
        exact Matches.term (by tauto)
      · intro h
        cases h with
        | term h' => tauto
    | conj l =>
      cases hwf with
      | conj hw =>
        have hl : sizeOf l ≤ n := by simp at hs; omega
        rw [show check_event e (SearchExpr.conj l) = checkConj e l from rfl,
          checkConj_eq_all, List.all_eq_true]
        constructor
        · intro h
          exact Matches.conj fun x hx =>
            (ih x (lt_of_lt_of_le (List.sizeOf_lt_of_mem hx) hl).le
              (hw x hx)).mp (h x hx)
        · intro h
          cases h with
          | conj hm =>
            exact fun x hx =>
              (ih x (lt_of_lt_of_le (List.sizeOf_lt_of_mem hx) hl).le
                (hw x hx)).mpr (hm x hx)
    | disj l =>
      cases hwf with
      | disj hw =>
        have hl : sizeOf l ≤ n := by simp at hs; omega
        rw [show check_event e (SearchExpr.disj l) = checkDisj e l from rfl,
          checkDisj_eq_any, List.any_eq_true]
        constructor
        · rintro ⟨x, hx, hpx⟩
          exact Matches.disj hx
            ((ih x (lt_of_lt_of_le (List.sizeOf_lt_of_mem hx) hl).le
              (hw x hx)).mp hpx)
        · intro h
          cases h with
          | disj hx hm =>
            rename_i x
            exact ⟨x, hx,
              (ih x (lt_of_lt_of_le (List.sizeOf_lt_of_mem hx) hl).le
                (hw x hx)).mpr hm⟩
    | other => cases hwf

theorem check_event_text_aux (e1 e2 : Event) (hn : e1.name = e2.name)
    (hp : e1.place = e2.place) (ha : e1.address = e2.address) :
    ∀ (n : Nat) (s : SearchExpr), sizeOf s ≤ n →
      check_event e1 s = check_event e2 s := by
  intro n
  induction n with
  | zero =>
    intro s hs
    exfalso
    cases s <;> simp at hs
  | succ n ih =>
    intro s hs
    cases s with
    | term t =>
      rw [show check_event e1 (SearchExpr.term t) =
          (substr t e1.name || substr t e1.place || substr t e1.address)
          from rfl,
        show check_event e2 (SearchExpr.term t) =
          (substr t e2.name || substr t e2.place || substr t e2.address)
          from rfl, hn, hp, ha]
    | conj l =>
      have hl : sizeOf l ≤ n := by simp at hs; omega
      rw [show check_event e1 (SearchExpr.conj l) = checkConj e1 l from rfl,
        show check_event e2 (SearchExpr.conj l) = checkConj e2 l from rfl,
        checkConj_eq_all, checkConj_eq_all]
      exact list_all_congr fun x hx =>
        ih x (lt_of_lt_of_le (List.sizeOf_lt_of_mem hx) hl).le
    | disj l =>
      have hl : sizeOf l ≤ n := by simp at hs; omega
      rw [show check_event e1 (SearchExpr.disj l) = checkDisj e1 l from rfl,
        show check_event e2 (SearchExpr.disj l) = checkDisj e2 l from rfl,
        checkDisj_eq_any, checkDisj_eq_any]
      exact list_any_congr fun x hx =>
        ih x (lt_of_lt_of_le (List.sizeOf_lt_of_mem hx) hl).le
    | other => rfl

/-- C1 counterexample: at the concrete event `sampleEvent` and a node that
is neither a Term nor a Conjunction nor a Disjunction, the matcher does not
raise a fatal error: it falls through to the final return False and yields
the normal boolean result false. -/
theorem check_event_other_cex :
    check_event sampleEvent SearchExpr.other = false := rfl

/-- C1 (amended): for every event, applying the matcher to a
SearchExpression node that is neither a Term nor a Conjunction nor a
Disjunction returns the normal boolean result false (a non-match); no
error is raised. -/
theorem check_event_other_false (e : Event) :
    check_event e SearchExpr.other = false := rfl

/-- C2: for every event and every well-formed SearchExpression, the matcher
agrees with the reference semantics `Matches`: a Term matches iff it is a
case-sensitive substring of the event name, place or address; a Conjunction
matches iff all children match (the empty Conjunction matches); a
Disjunction matches iff some child matches (the empty Disjunction does
not). -/
theorem check_event_iff_matches (e : Event) (s : SearchExpr) (hwf : WF s) :
    check_event e s = true ↔ Matches e s :=
  check_event_iff_matches_aux e (sizeOf s) s le_rfl hwf

/-- Witness for C2 at a concrete well-formed expression and event. -/
theorem check_event_iff_matches_witness :
    WF (SearchExpr.term "Jazz") ∧
    (check_event sampleEvent (SearchExpr.term "Jazz") = true ↔
      Matches sampleEvent (SearchExpr.term "Jazz")) :=
  ⟨WF.term "Jazz",
    check_event_iff_matches sampleEvent (SearchExpr.term "Jazz")
      (WF.term "Jazz")⟩

/-- C6: the matcher is monotonic. Given a term that matches the event,
inserting it into a Disjunction cannot turn a true result false, and
removing it from a Conjunction cannot turn a false result true. -/
theorem check_event_monotone (e : Event) (t : String)
    (l1 l2 : List SearchExpr)
    (ht : check_event e (SearchExpr.term t) = true) :
    (check_event e (SearchExpr.disj (l1 ++ l2)) = true →
      check_event e (SearchExpr.disj (l1 ++ SearchExpr.term t :: l2)) =
        true) ∧
    (check_event e (SearchExpr.conj (l1 ++ SearchExpr.term t :: l2)) =
        false →
      check_event e (SearchExpr.conj (l1 ++ l2)) = false) := by
  constructor
  · intro h
    rw [show check_event e
        (SearchExpr.disj (l1 ++ SearchExpr.term t :: l2)) =
        checkDisj e (l1 ++ SearchExpr.term t :: l2) from rfl,
      checkDisj_eq_any]
    simp [List.any_cons, ht]
  · intro h
    rw [show check_event e (SearchExpr.conj (l1 ++ SearchExpr.term t :: l2))
        = checkConj e (l1 ++ SearchExpr.term t :: l2) from rfl,
      checkConj_eq_all] at h
    rw [show check_event e (SearchExpr.conj (l1 ++ l2)) =
        checkConj e (l1 ++ l2) from rfl, checkConj_eq_all]
    simpa [List.all_append, List.all_cons, ht] using h

/-- Witness for C6 at a concrete event and matching term. -/
theorem check_event_monotone_witness :
    check_event sampleEvent (SearchExpr.term "Jazz") = true ∧
    ((check_event sampleEvent (SearchExpr.disj ([] ++ [])) = true →
      check_event sampleEvent
        (SearchExpr.disj ([] ++ SearchExpr.term "Jazz" :: [])) = true) ∧
    (check_event sampleEvent
        (SearchExpr.conj ([] ++ SearchExpr.term "Jazz" :: [])) = false →
      check_event sampleEvent (SearchExpr.conj ([] ++ [])) = false)) :=
  ⟨by decide, check_event_monotone sampleEvent "Jazz" [] [] (by decide)⟩

/-- C10: the match result depends only on the event's three text fields;
two events with the same name, place and address get the same result for
every search expression, whatever their date, hour, coordinates and
result lists are. -/
theorem check_event_text_only (e1 e2 : Event) (hn : e1.name = e2.name)
    (hp : e1.place = e2.place) (ha : e1.address = e2.address)
    (s : SearchExpr) : check_event e1 s = check_event e2 s :=
  check_event_text_aux e1 e2 hn hp ha (sizeOf s) s le_rfl

/-- Witness for C10: two concrete events sharing the text fields but
differing in date, hour and coordinates. -/
theorem check_event_text_only_witness :
    sampleEvent.name = sampleEventAlt.name ∧
    sampleEvent.place = sampleEventAlt.place ∧
    sampleEvent.address = sampleEventAlt.address ∧
    check_event sampleEvent (SearchExpr.term "Jazz") =
      check_event sampleEventAlt (SearchExpr.term "Jazz") :=
  ⟨rfl, rfl, rfl,
    check_event_text_only sampleEvent sampleEventAlt rfl rfl rfl
      (SearchExpr.term "Jazz")⟩

theorem collect_stations_eq (c : LatLong) (maxd : ℝ) :
    ∀ (stations : List Station) (accS accB : List (Station × ℝ)),
      collect_stations c maxd stations accS accB =
        (accS ++ slots_entries c maxd stations,
         accB ++ bikes_entries c maxd stations) := by
  intro stations
  induction stations with
  | nil =>
    intro accS accB
    simp [collect_stations, slots_entries, bikes_entries]
  | cons s rest ih =>
    intro accS accB
    simp only [collect_stations]
    split_ifs with h1 h2 h3
    · rw [ih]
      simp [slots_entries, bikes_entries, List.filterMap_cons, h1, h2]
    · have h2' : s.slots ≤ 0 := not_lt.mp h2
      rw [ih]
      simp [slots_entries, bikes_entries, List.filterMap_cons, h1, h2, h2',
        h3]
    · have h2' : s.slots ≤ 0 := not_lt.mp h2
      have h3' : s.bikes ≤ 0 := not_lt.mp h3
      rw [ih]
      simp [slots_entries, bikes_entries, List.filterMap_cons, h1, h2, h2',
        h3, h3']
    · rw [ih]
      simp [slots_entries, bikes_entries, List.filterMap_cons, h1]

theorem mem_slots_entries {c : LatLong} {maxd : ℝ} {stations : List Station}
    {p : Station × ℝ} :
    p ∈ slots_entries c maxd stations ↔
      p.1 ∈ stations ∧ p.2 = haversine_distance c p.1.coords ∧
        p.2 ≤ maxd ∧ p.1.slots > 0 := by
  simp only [slots_entries, List.mem_filterMap]
  constructor
  · rintro ⟨s, hs, hf⟩
    by_cases h : haversine_distance c s.coords ≤ maxd ∧ s.slots > 0
    · rw [if_pos h] at hf
      injection hf with hf'
      rw [← hf']
      exact ⟨hs, rfl, h.1, h.2⟩
    · rw [if_neg h] at hf
      cases hf
  · rintro ⟨hmem, hd, hle, hslots⟩
    refine ⟨p.1, hmem, ?_⟩
    rw [if_pos ⟨hd ▸ hle, hslots⟩, ← hd]

theorem mem_bikes_entries {c : LatLong} {maxd : ℝ} {stations : List Station}
    {p : Station × ℝ} :
    p ∈ bikes_entries c maxd stations ↔
      p.1 ∈ stations ∧ p.2 = haversine_distance c p.1.coords ∧
        p.2 ≤ maxd ∧ ¬ p.1.slots > 0 ∧ p.1.bikes > 0 := by
  simp only [bikes_entries, List.mem_filterMap]
  constructor
  · rintro ⟨s, hs, hf⟩
    by_cases h : haversine_distance c s.coords ≤ maxd ∧
        ¬ s.slots > 0 ∧ s.bikes > 0
    · rw [if_pos h] at hf
      injection hf with hf'
      rw [← hf']
      exact ⟨hs, rfl, h.1, h.2.1, h.2.2⟩
    · rw [if_neg h] at hf
      cases hf
  · rintro ⟨hmem, hd, hle, hns, hbikes⟩
    refine ⟨p.1, hmem, ?_⟩
    rw [if_pos ⟨hd ▸ hle, hns, hbikes⟩, ← hd]

theorem distLe_trans (a b c : Station × ℝ) :
    decide (a.2 ≤ b.2) = true → decide (b.2 ≤ c.2) = true →
      decide (a.2 ≤ c.2) = true := by
  intro h1 h2
  simp only [decide_eq_true_eq] at h1 h2 ⊢
  exact le_trans h1 h2

theorem distLe_total (a b : Station × ℝ) :
    (decide (a.2 ≤ b.2) || decide (b.2 ≤ a.2)) = true := by
  simpa using le_total a.2 b.2

theorem sorted_by_dist (l : List (Station × ℝ)) :
    (l.mergeSort (fun p q => decide (p.2 ≤ q.2))).Pairwise
      (fun p q : Station × ℝ => p.2 ≤ q.2) :=
  (List.sorted_mergeSort distLe_trans distLe_total l).imp
    (fun h => by simpa using h)

theorem mergeSort_filter_dist (l : List (Station × ℝ)) (d : ℝ) :
    (l.mergeSort (fun p q => decide (p.2 ≤ q.2))).filter
        (fun p => decide (p.2 = d)) =
      l.filter (fun p => decide (p.2 = d)) := by
  have hpair : (l.filter (fun p => decide (p.2 = d))).Pairwise
      (fun p q : Station × ℝ => decide (p.2 ≤ q.2) = true) := by
    apply List.pairwise_of_forall_mem_list
    intro a ha b hb
    have ha' := (List.mem_filter.mp ha).2
    have hb' := (List.mem_filter.mp hb).2
    simp only [decide_eq_true_eq] at ha' hb' ⊢
    rw [ha', hb']
  have hstep := List.sublist_mergeSort distLe_trans distLe_total hpair
    (List.filter_sublist l)
  have h3 : ((l.filter (fun p => decide (p.2 = d))).filter
      (fun p => decide (p.2 = d))) = l.filter (fun p => decide (p.2 = d)) :=
    List.filter_eq_self.mpr fun a ha => (List.mem_filter.mp ha).2
  have h2 := hstep.filter (fun p => decide (p.2 = d))
  rw [h3] at h2
  have hperm := (List.mergeSort_perm l
    (fun p q : Station × ℝ => decide (p.2 ≤ q.2))).filter
    (fun p => decide (p.2 = d))
  exact (h2.eq_of_length hperm.length_eq.symm).symm

theorem rank_event_some (stations : List Station) (maxd : ℝ) (ev : Event)
    (c : LatLong) (hc : ev.coords = some c) :
    rank_event stations maxd ev =
      { ev with
        stations_with_slots :=
          (ev.stations_with_slots ++
            slots_entries c maxd stations).mergeSort
              (fun p q => decide (p.2 ≤ q.2))
        stations_with_bikes :=
          (ev.stations_with_bikes ++
            bikes_entries c maxd stations).mergeSort
              (fun p q => decide (p.2 ≤ q.2)) } := by
  simp only [rank_event, hc, collect_stations_eq]

theorem sin_sq_radians_comm (x y : ℚ) :
    Real.sin (radians (x - y) / 2) ^ 2 =
      Real.sin (radians (y - x) / 2) ^ 2 := by
  have h : radians (x - y) / 2 = -(radians (y - x) / 2) := by
    simp only [radians]
    push_cast
    ring
  rw [h, Real.sin_neg]
  ring

/-- C7: the distance function is symmetric; swapping the two coordinate
arguments of haversine_distance yields the same value. -/
theorem haversine_distance_symm (a b : LatLong) :
    haversine_distance a b = haversine_distance b a := by
  simp only [haversine_distance]
  have hA : Real.sin (radians (b.latitude - a.latitude) / 2) ^ 2 +
      Real.cos (radians a.latitude) * Real.cos (radians b.latitude) *
        Real.sin (radians (b.longitude - a.longitude) / 2) ^ 2 =
      Real.sin (radians (a.latitude - b.latitude) / 2) ^ 2 +
      Real.cos (radians b.latitude) * Real.cos (radians a.latitude) *
        Real.sin (radians (a.longitude - b.longitude) / 2) ^ 2 := by
    rw [sin_sq_radians_comm b.latitude a.latitude,
      sin_sq_radians_comm b.longitude a.longitude]
    ring
  rw [hA]

theorem haversine_distance_self (p : LatLong) :
    haversine_distance p p = 0 := by
  simp only [haversine_distance, sub_self]
  norm_num [radians, atan2, Real.sqrt_one, Real.arctan_zero]

/-- C3: after ranking, for an event with coordinates whose result lists
start out empty (as for every freshly parsed event), every entry of both
result lists is within max_distance, both lists are sorted ascending by
distance, and entries with equal distances keep the original station
iteration order: filtering either list to any fixed distance gives exactly
the corresponding in-order sublist of qualifying stations. -/
theorem rank_bounded_sorted_stable (events : List Event)
    (stations : List Station) (maxd : ℝ) (i : Nat) (ev : Event)
    (c : LatLong) (hev : events[i]? = some ev) (hc : ev.coords = some c)
    (hs0 : ev.stations_with_slots = [])
    (hb0 : ev.stations_with_bikes = []) :
    (set_nearest_stations events stations maxd)[i]? =
      some (rank_event stations maxd ev) ∧
    (∀ p ∈ (rank_event stations maxd ev).stations_with_slots, p.2 ≤ maxd) ∧
    (∀ p ∈ (rank_event stations maxd ev).stations_with_bikes, p.2 ≤ maxd) ∧
    (rank_event stations maxd ev).stations_with_slots.Pairwise
      (fun p q => p.2 ≤ q.2) ∧
    (rank_event stations maxd ev).stations_with_bikes.Pairwise
      (fun p q => p.2 ≤ q.2) ∧
    (∀ d : ℝ, (rank_event stations maxd ev).stations_with_slots.filter
        (fun p => decide (p.2 = d)) =
      (slots_entries c maxd stations).filter (fun p => decide (p.2 = d))) ∧
    (∀ d : ℝ, (rank_event stations maxd ev).stations_with_bikes.filter
        (fun p => decide (p.2 = d)) =
      (bikes_entries c maxd stations).filter (fun p => decide (p.2 = d))) := by
  have hre := rank_event_some stations maxd ev c hc
  have hslots : (rank_event stations maxd ev).stations_with_slots =
      (slots_entries c maxd stations).mergeSort
        (fun p q => decide (p.2 ≤ q.2)) := by
    rw [hre]
    simp [hs0]
  have hbikes : (rank_event stations maxd ev).stations_with_bikes =
      (bikes_entries c maxd stations).mergeSort
        (fun p q => decide (p.2 ≤ q.2)) := by
    rw [hre]
    simp [hb0]
  refine ⟨?_, ?_, ?_, ?_, ?_, ?_, ?_⟩
  · simp [set_nearest_stations, hev]
  · intro p hp
    rw [hslots] at hp
    exact (mem_slots_entries.mp (List.mem_mergeSort.mp hp)).2.2.1
  · intro p hp
    rw [hbikes] at hp
    exact (mem_bikes_entries.mp (List.mem_mergeSort.mp hp)).2.2.1
  · rw [hslots]
    exact sorted_by_dist _
  · rw [hbikes]
    exact sorted_by_dist _
  · intro d
    rw [hslots, mergeSort_filter_dist]
  · intro d
    rw [hbikes, mergeSort_filter_dist]

/-- Witness for C3 at a concrete event, station list and max distance. -/
theorem rank_bounded_sorted_stable_witness :
    (set_nearest_stations [sampleRankEvent] [sampleStation] 0)[0]? =
      some (rank_event [sampleStation] 0 sampleRankEvent) :=
  (rank_bounded_sorted_stable [sampleRankEvent] [sampleStation] 0 0
    sampleRankEvent ⟨41, 2⟩ rfl rfl rfl rfl).1

/-- C4: a station within range of an event with coordinates (and initially
empty result lists) is classified slots-first: with free slots it goes only
to stations_with_slots, otherwise with available bikes only to
stations_with_bikes, with neither it goes nowhere, and in no case does the
same station land in both result lists of the event. -/
theorem rank_classification (stations : List Station) (maxd : ℝ)
    (ev : Event) (c : LatLong) (s : Station) (hc : ev.coords = some c)
    (hs0 : ev.stations_with_slots = [])
    (hb0 : ev.stations_with_bikes = []) (hmem : s ∈ stations)
    (hrange : haversine_distance c s.coords ≤ maxd) :
    (s.slots > 0 →
      (s, haversine_distance c s.coords) ∈
        (rank_event stations maxd ev).stations_with_slots ∧
      ∀ d : ℝ, (s, d) ∉ (rank_event stations maxd ev).stations_with_bikes) ∧
    (¬ s.slots > 0 → s.bikes > 0 →
      (s, haversine_distance c s.coords) ∈
        (rank_event stations maxd ev).stations_with_bikes ∧
      ∀ d : ℝ, (s, d) ∉ (rank_event stations maxd ev).stations_with_slots) ∧
    (¬ s.slots > 0 → ¬ s.bikes > 0 → ∀ d : ℝ,
      (s, d) ∉ (rank_event stations maxd ev).stations_with_slots ∧
      (s, d) ∉ (rank_event stations maxd ev).stations_with_bikes) ∧
    (∀ d1 d2 : ℝ,
      ¬((s, d1) ∈ (rank_event stations maxd ev).stations_with_slots ∧
        (s, d2) ∈ (rank_event stations maxd ev).stations_with_bikes)) := by
  have hre := rank_event_some stations maxd ev c hc
  have hslots : (rank_event stations maxd ev).stations_with_slots =
      (slots_entries c maxd stations).mergeSort
        (fun p q => decide (p.2 ≤ q.2)) := by
    rw [hre]
    simp [hs0]
  have hbikes : (rank_event stations maxd ev).stations_with_bikes =
      (bikes_entries c maxd stations).mergeSort
        (fun p q => decide (p.2 ≤ q.2)) := by
    rw [hre]
    simp [hb0]
  refine ⟨?_, ?_, ?_, ?_⟩
  · intro hpos
    constructor
    · rw [hslots]
      exact List.mem_mergeSort.mpr
        (mem_slots_entries.mpr ⟨hmem, rfl, hrange, hpos⟩)
    · intro d hd
      rw [hbikes] at hd
      exact (mem_bikes_entries.mp (List.mem_mergeSort.mp hd)).2.2.2.1 hpos
  · intro hns hbpos
    constructor
    · rw [hbikes]
      exact List.mem_mergeSort.mpr
        (mem_bikes_entries.mpr ⟨hmem, rfl, hrange, hns, hbpos⟩)
    · intro d hd
      rw [hslots] at hd
      exact hns (mem_slots_entries.mp (List.mem_mergeSort.mp hd)).2.2.2
  · intro hns hnb d
    constructor
    · intro hd
      rw [hslots] at hd
      exact hns (mem_slots_entries.mp (List.mem_mergeSort.mp hd)).2.2.2
    · intro hd
      rw [hbikes] at hd
      exact hnb (mem_bikes_entries.mp (List.mem_mergeSort.mp hd)).2.2.2.2
  · rintro d1 d2 ⟨h1, h2⟩
    rw [hslots] at h1
    rw [hbikes] at h2
    exact (mem_bikes_entries.mp (List.mem_mergeSort.mp h2)).2.2.2.1
      (mem_slots_entries.mp (List.mem_mergeSort.mp h1)).2.2.2

/-- Witness for C4: a station with free slots located exactly at the event,
with max distance 0, ends up in the slots list. -/
theorem rank_classification_witness :
    (sampleStation, haversine_distance ⟨41, 2⟩ sampleStation.coords) ∈
      (rank_event [sampleStation] 0 sampleRankEvent).stations_with_slots :=
  ((rank_classification [sampleStation] 0 sampleRankEvent ⟨41, 2⟩
    sampleStation rfl rfl rfl (List.mem_singleton.mpr rfl)
    (le_of_eq (haversine_distance_self ⟨41, 2⟩))).1 (by decide)).1

/-- C8: an event without coordinates is skipped entirely by the ranker: the
event, and in particular both of its result lists, comes out exactly as it
went in, for every station list and max distance. -/
theorem rank_skips_no_coords (events : List Event) (stations : List Station)
    (maxd : ℝ) (i : Nat) (ev : Event) (hev : events[i]? = some ev)
    (hc : ev.coords = none) :
    (set_nearest_stations events stations maxd)[i]? = some ev ∧
    rank_event stations maxd ev = ev := by
  have h : rank_event stations maxd ev = ev := by
    simp [rank_event, hc]
  exact ⟨by simp [set_nearest_stations, hev, h], h⟩

/-- Witness for C8 at a concrete coordinate-less event. -/
theorem rank_skips_no_coords_witness :
    (set_nearest_stations [sampleEvent] [sampleStation] 300)[0]? =
      some sampleEvent :=
  (rank_skips_no_coords [sampleEvent] [sampleStation] 300 0 sampleEvent
    rfl rfl).1

/-- C9: the ranker only appends: for an event with coordinates, each result
list after ranking is a permutation of the pre-existing entries plus the
in-order qualifying entries, so nothing is ever cleared; ranking the same
event twice with the same stations therefore yields each qualifying entry
twice on top of the pre-existing ones. -/
theorem rank_event_appends_only (stations : List Station) (maxd : ℝ)
    (ev : Event) (c : LatLong) (hc : ev.coords = some c) :
    (rank_event stations maxd ev).stations_with_slots.Perm
      (ev.stations_with_slots ++ slots_entries c maxd stations) ∧
    (rank_event stations maxd ev).stations_with_bikes.Perm
      (ev.stations_with_bikes ++ bikes_entries c maxd stations) ∧
    (rank_event stations maxd
        (rank_event stations maxd ev)).stations_with_slots.Perm
      (ev.stations_with_slots ++ slots_entries c maxd stations ++
        slots_entries c maxd stations) ∧
    (rank_event stations maxd
        (rank_event stations maxd ev)).stations_with_bikes.Perm
      (ev.stations_with_bikes ++ bikes_entries c maxd stations ++
        bikes_entries c maxd stations) := by
  have hre := rank_event_some stations maxd ev c hc
  have hc2 : (rank_event stations maxd ev).coords = some c := by
    rw [hre]
    exact hc
  have hre2 := rank_event_some stations maxd (rank_event stations maxd ev)
    c hc2
  have hslots : (rank_event stations maxd ev).stations_with_slots =
      (ev.stations_with_slots ++ slots_entries c maxd stations).mergeSort
        (fun p q => decide (p.2 ≤ q.2)) := by
    rw [hre]
  have hbikes : (rank_event stations maxd ev).stations_with_bikes =
      (ev.stations_with_bikes ++ bikes_entries c maxd stations).mergeSort
        (fun p q => decide (p.2 ≤ q.2)) := by
    rw [hre]
  refine ⟨?_, ?_, ?_, ?_⟩
  · rw [hslots]
    exact List.mergeSort_perm _ _
  · rw [hbikes]
    exact List.mergeSort_perm _ _
  · rw [hre2]
    refine (List.mergeSort_perm _ _).trans ?_
    refine List.Perm.append_right _ ?_
    rw [hslots]
    exact List.mergeSort_perm _ _
  · rw [hre2]
    refine (List.mergeSort_perm _ _).trans ?_
    refine List.Perm.append_right _ ?_
    rw [hbikes]
    exact List.mergeSort_perm _ _

/-- Witness for C9 at a concrete event with coordinates. -/
theorem rank_event_appends_only_witness :
    (rank_event [sampleStation] 0 sampleRankEvent).stations_with_slots.Perm
      (sampleRankEvent.stations_with_slots ++
        slots_entries ⟨41, 2⟩ 0 [sampleStation]) :=
  (rank_event_appends_only [sampleStation] 0 sampleRankEvent ⟨41, 2⟩ rfl).1

theorem find_monthly_events_filter (t : SearchExpr) (d : Nat)
    (feed : List Event) :
    find_monthly_events t d feed =
      feed.filter (fun e => decide (e.date = d) && check_event e t) := by
  induction feed with
  | nil => rfl
  | cons e rest ih =>
    simp only [find_monthly_events, List.filter_cons]
    by_cases h1 : e.date = d
    · by_cases h2 : check_event e t = true
      · rw [if_pos ⟨h1, h2⟩]
        simp [h1, h2, ih]
      · rw [if_neg (by tauto)]
        simp [h1, h2, ih]
    · rw [if_neg (by tauto)]
      simp [h1, ih]

/-- C5: in the specific-date mode the returned events are exactly the feed
events whose date equals the target date and which match the search
expression, in the original feed order, and since the ranker is never
invoked in this mode, every returned event keeps its freshly constructed
empty result lists. -/
theorem find_monthly_events_spec (t : SearchExpr) (d : Nat)
    (feed : List Event)
    (hfresh : ∀ e ∈ feed, e.stations_with_slots = [] ∧
      e.stations_with_bikes = []) :
    find_monthly_events t d feed =
      feed.filter (fun e => decide (e.date = d) && check_event e t) ∧
    ∀ e ∈ find_monthly_events t d feed,
      e.date = d ∧ check_event e t = true ∧
      e.stations_with_slots = [] ∧ e.stations_with_bikes = [] := by
  refine ⟨find_monthly_events_filter t d feed, ?_⟩
  intro e he
  rw [find_monthly_events_filter] at he
  have hmem := List.mem_of_mem_filter he
  have hcond := (List.mem_filter.mp he).2
  simp only [Bool.and_eq_true, decide_eq_true_eq] at hcond
  exact ⟨hcond.1, hcond.2, (hfresh e hmem).1, (hfresh e hmem).2⟩

/-- Witness for C5 at a concrete one-event feed with fresh result lists. -/
theorem find_monthly_events_spec_witness :
    find_monthly_events (SearchExpr.term "Jazz") 5 [sampleEvent] =
      [sampleEvent].filter
        (fun e => decide (e.date = 5) &&
          check_event e (SearchExpr.term "Jazz")) :=
  (find_monthly_events_spec (SearchExpr.term "Jazz") 5 [sampleEvent]
    (fun e he => by
      rw [List.mem_singleton] at he
      subst he
      exact ⟨rfl, rfl⟩)).1
